import Mathlib

/-
Shallow embedding of the decom-eta tool (src/main.go).

Modelling conventions:
* Timestamps and durations are integers counting nanoseconds, mirroring
  Go's `time.Time`/`time.Duration`.  The Go zero `time.Time` is modelled
  as the integer 0, so `StartTime.IsZero()` becomes `startTime = 0`.
* The byte counters `TotalSize`, `StartSize`, `CurrentSize` are `int64`
  in madmin-go; they are modelled as `Int` (the magnitudes involved are
  byte counts, far from the `int64` boundary).
* Go `float64` arithmetic on these counters (`float64(x)/float64(y)`,
  `elapsed.Seconds()`) is modelled exactly over `ℚ`.
* Go's conversion `int64(f)` / `time.Duration(f)` of a `float64`
  truncates toward zero: `ratTrunc` below.
* Go's integer `/` and `%` truncate toward zero with the remainder
  taking the dividend's sign: `Int.tdiv` / `Int.tmod`.
-/

namespace DecomEta

/-- Truncation of a rational toward zero, as Go's float-to-integer
conversion behaves. -/
def ratTrunc (q : ℚ) : Int := if 0 ≤ q then ⌊q⌋ else ⌈q⌉

/-- The decommission status of one pool, the fields of
`madmin.PoolStatus.Decommission` read by `main`.  `startTime` is in
nanoseconds with 0 standing for Go's zero `time.Time`. -/
structure DecomInfo where
  startTime : Int
  totalSize : Int
  startSize : Int
  currentSize : Int
  complete : Bool
  failed : Bool
  canceled : Bool
deriving DecidableEq

/-- `initialUsed := d.TotalSize - d.StartSize` in `main`. -/
def initialUsed (d : DecomInfo) : Int := d.totalSize - d.startSize

/-- `bytesFreed := d.CurrentSize - d.StartSize` in `main`. -/
def bytesFreed (d : DecomInfo) : Int := d.currentSize - d.startSize

/-- `usedNow := d.TotalSize - d.CurrentSize` in `main`. -/
def usedNow (d : DecomInfo) : Int := d.totalSize - d.currentSize

/-- `time.Since(d.StartTime).Seconds()`: elapsed nanoseconds divided by
10^9, exact over `ℚ`. -/
def elapsedSeconds (startTime now : Int) : ℚ :=
  ((now - startTime : Int) : ℚ) / 1000000000

/-- `progress := float64(bytesFreed) / float64(initialUsed)` in `main`. -/
def progressFraction (d : DecomInfo) : ℚ :=
  (bytesFreed d : ℚ) / (initialUsed d : ℚ)

/-- `speed := float64(bytesFreed) / elapsed.Seconds()` in `main`. -/
def speedOf (d : DecomInfo) (now : Int) : ℚ :=
  (bytesFreed d : ℚ) / elapsedSeconds d.startTime now

/-- The current-usage percentage `100*float64(usedNow)/float64(d.TotalSize)`
printed by `main`. -/
def usagePctOf (d : DecomInfo) : ℚ :=
  100 * (usedNow d : ℚ) / (d.totalSize : ℚ)

/-- The ETA timestamp printed by `main` when `progress > 0 && progress < 1.0`:
`etaSeconds := elapsed.Seconds()/progress - elapsed.Seconds()` and
`etaTime := time.Now().Add(time.Duration(etaSeconds) * time.Second)`.
`time.Duration(etaSeconds)` truncates the float toward zero, and the
multiplication by `time.Second` scales it to nanoseconds. -/
def etaOf (d : DecomInfo) (now : Int) : Option Int :=
  if progressFraction d > 0 ∧ progressFraction d < 1 then
    some (now + ratTrunc (elapsedSeconds d.startTime now / progressFraction d
            - elapsedSeconds d.startTime now) * 1000000000)
  else none

/-- The derived numbers printed by the `InProgress` branch of `main`. -/
structure Metrics where
  initialUsed : Int
  bytesFreed : Int
  usedNow : Int
  totalSize : Int
  progress : ℚ
  usagePct : ℚ
  speed : ℚ
  eta : Option Int
deriving DecidableEq

/-- All derived metrics of one draining pool. -/
def metricsOf (d : DecomInfo) (now : Int) : Metrics :=
  { initialUsed := initialUsed d
    bytesFreed := bytesFreed d
    usedNow := usedNow d
    totalSize := d.totalSize
    progress := progressFraction d
    usagePct := usagePctOf d
    speed := speedOf d now
    eta := etaOf d now }

/-- The classification of one pool snapshot, the three-way split realised
by `main`'s per-pool loop body. -/
inductive DecommissionView where
  | notDraining
  | starting
  | inProgress (m : Metrics)
deriving DecidableEq

/-- The per-pool evaluation in `main`: skip when `d == nil`, when
`d.StartTime.IsZero()`, or when `d.Complete || d.Failed || d.Canceled`
(⇒ `notDraining`); otherwise `inProgress` exactly when
`bytesFreed > 0 && initialUsed > 0 && elapsed.Seconds() > 10`, else the
starting placeholder. -/
def evaluate : Option DecomInfo → Int → DecommissionView
  | none, _ => DecommissionView.notDraining
  | some d, now =>
    if d.startTime = 0 then DecommissionView.notDraining
    else if d.complete || d.failed || d.canceled then DecommissionView.notDraining
    else if bytesFreed d > 0 ∧ initialUsed d > 0 ∧
        elapsedSeconds d.startTime now > 10 then
      DecommissionView.inProgress (metricsOf d now)
    else DecommissionView.starting

/-- One entry of `madmin.ListPoolsStatus`'s result as read by `main`. -/
structure PoolStatus where
  id : Int
  cmdLine : String
  decommission : Option DecomInfo
deriving DecidableEq

/-- One output line of `main`, abstracting the text formatting of the
external helpers (humanize, RFC3339) while keeping the printed values. -/
inductive Line where
  | header (id : Int) (cmd : String)
  | started (startTime : Int)
  | progressLine (freed used : Int) (pct : ℚ)
  | usageLine (usedNow total : Int) (pct : ℚ)
  | speedLine (speed : ℚ)
  | etaLine (t : Int)
  | startingLine
  | blank
  | noPools
deriving DecidableEq

/-- The condition under which `main`'s loop sets `hasDraining = true` for
a pool: the two `continue` guards both fail. -/
def isDraining (od : Option DecomInfo) : Bool :=
  match od with
  | none => false
  | some d => !(d.startTime == 0) && !(d.complete || d.failed || d.canceled)

/-- The lines `main` prints for one pool. -/
def poolLines (p : PoolStatus) (now : Int) : List Line :=
  match p.decommission with
  | none => []
  | some d =>
    match evaluate p.decommission now with
    | DecommissionView.notDraining => []
    | DecommissionView.starting =>
        [Line.header p.id p.cmdLine, Line.started d.startTime,
         Line.startingLine, Line.blank]
    | DecommissionView.inProgress m =>
        [Line.header p.id p.cmdLine, Line.started d.startTime,
         Line.progressLine m.bytesFreed m.initialUsed (m.progress * 100),
         Line.usageLine m.usedNow m.totalSize m.usagePct,
         Line.speedLine m.speed] ++
        (match m.eta with
         | some t => [Line.etaLine t]
         | none => []) ++ [Line.blank]

/-- The whole report of `main`: the per-pool lines in order, followed by
the no-pools message when no pool set `hasDraining`. -/
def report (pools : List PoolStatus) (now : Int) : List Line :=
  (pools.map (fun p => poolLines p now)).flatten ++
  (if pools.any (fun p => isDraining p.decommission) then []
   else [Line.noPools])

/-- `d.Hours()` of a duration of `d` nanoseconds. -/
def durationHours (d : Int) : ℚ := (d : ℚ) / 3600000000000

/-- `d.Minutes()` of a duration of `d` nanoseconds. -/
def durationMinutes (d : Int) : ℚ := (d : ℚ) / 60000000000

/-- The `parts` slice built by `formatDuration` in `main`:
`days := int(d.Hours()) / 24`, `hours := int(d.Hours()) % 24`,
`mins := int(d.Minutes()) % 60`, each appended when strictly positive. -/
def formatParts (d : Int) : List String :=
  (if (ratTrunc (durationHours d)).tdiv 24 > 0 then
    [toString ((ratTrunc (durationHours d)).tdiv 24) ++ "d"] else []) ++
  (if (ratTrunc (durationHours d)).tmod 24 > 0 then
    [toString ((ratTrunc (durationHours d)).tmod 24) ++ "h"] else []) ++
  (if (ratTrunc (durationMinutes d)).tmod 60 > 0 then
    [toString ((ratTrunc (durationMinutes d)).tmod 60) ++ "m"] else [])

/-- `formatDuration` from `main`: the sentinel when `parts` is empty,
otherwise `strings.Join(parts, " ")`. -/
def formatDuration (d : Int) : String :=
  match formatParts d with
  | [] => "< 1m"
  | parts => String.intercalate " " parts

/-! Characterization lemmas for `evaluate`. -/

lemma evaluate_some (d : DecomInfo) (now : Int)
    (h1 : d.startTime ≠ 0) (h2 : d.complete = false) (h3 : d.failed = false)
    (h4 : d.canceled = false) :
    evaluate (some d) now =
      if bytesFreed d > 0 ∧ initialUsed d > 0 ∧
          elapsedSeconds d.startTime now > 10
      then DecommissionView.inProgress (metricsOf d now)
      else DecommissionView.starting := by
  simp only [evaluate]
  rw [if_neg h1, if_neg (by simp [h2, h3, h4])]

lemma evaluate_inProgress_iff (d : DecomInfo) (now : Int) (m : Metrics) :
    evaluate (some d) now = DecommissionView.inProgress m ↔
      d.startTime ≠ 0 ∧ d.complete = false ∧ d.failed = false ∧
      d.canceled = false ∧ bytesFreed d > 0 ∧ initialUsed d > 0 ∧
      elapsedSeconds d.startTime now > 10 ∧ m = metricsOf d now := by
  simp only [evaluate]
  split_ifs with hz hflag hcond
  · simp [hz]
  · simp only [Bool.or_eq_true] at hflag
    constructor
    · intro hx; cases hx
    · rintro ⟨-, hc, hf, hca, -⟩
      rw [hc, hf, hca] at hflag
      simp at hflag
  · simp only [Bool.or_eq_true, not_or] at hflag
    constructor
    · intro hx
      refine ⟨hz, ?_, ?_, ?_, hcond.1, hcond.2.1, hcond.2.2, ?_⟩
      · exact Bool.eq_false_iff.mpr hflag.1.1
      · exact Bool.eq_false_iff.mpr hflag.1.2
      · exact Bool.eq_false_iff.mpr hflag.2
      · cases hx; rfl
    · rintro ⟨-, -, -, -, -, -, -, hm⟩
      rw [hm]
  · constructor
    · intro hx; cases hx
    · rintro ⟨-, -, -, -, hb, hi, hel, -⟩
      exact absurd ⟨hb, hi, hel⟩ hcond

/-- C1: for a draining snapshot (nonzero start time, no terminal flag),
`evaluate` classifies it `starting` — and the report then shows only the
header, start-time line, and the starting placeholder — exactly when
`bytesFreed ≤ 0`, or `initialUsed ≤ 0`, or the elapsed seconds are
at most 10. -/
theorem c1_starting_iff (d : DecomInfo) (now : Int)
    (h1 : d.startTime ≠ 0) (h2 : d.complete = false) (h3 : d.failed = false)
    (h4 : d.canceled = false) :
    (evaluate (some d) now = DecommissionView.starting ↔
      bytesFreed d ≤ 0 ∨ initialUsed d ≤ 0 ∨
      elapsedSeconds d.startTime now ≤ 10) ∧
    (evaluate (some d) now = DecommissionView.starting →
      ∀ pid cmd, poolLines ⟨pid, cmd, some d⟩ now =
        [Line.header pid cmd, Line.started d.startTime,
         Line.startingLine, Line.blank]) := by
  constructor
  · rw [evaluate_some d now h1 h2 h3 h4]
    split_ifs with h
    · constructor
      · intro hx; cases hx
      · rintro (hb | hi | hel)
        · exact absurd h.1 (not_lt.mpr hb)
        · exact absurd h.2.1 (not_lt.mpr hi)
        · exact absurd h.2.2 (not_lt.mpr hel)
    · push_neg at h
      constructor
      · intro _
        by_cases hb : bytesFreed d ≤ 0
        · exact Or.inl hb
        · by_cases hi : initialUsed d ≤ 0
          · exact Or.inr (Or.inl hi)
          · exact Or.inr (Or.inr (h (not_le.mp hb) (not_le.mp hi)))
      · intro _; rfl
  · intro hs pid cmd
    simp [poolLines, hs]

/-- C1 witness: the spec scenario TotalSize=2000, StartSize=1000,
CurrentSize=1000 with 60 elapsed seconds is classified `starting`. -/
theorem c1_witness :
    evaluate (some ⟨1, 2000, 1000, 1000, false, false, false⟩) 60000000001 =
      DecommissionView.starting :=
  ((c1_starting_iff ⟨1, 2000, 1000, 1000, false, false, false⟩ 60000000001
      (by decide) rfl rfl rfl).1).mpr (Or.inl (by decide))

/-- C2: a snapshot with zero start time or any terminal flag set is
classified `notDraining` and contributes no report lines. -/
theorem c2_notDraining (d : DecomInfo) (now : Int)
    (h : d.startTime = 0 ∨ d.complete = true ∨ d.failed = true ∨
      d.canceled = true) :
    evaluate (some d) now = DecommissionView.notDraining ∧
    ∀ pid cmd, poolLines ⟨pid, cmd, some d⟩ now = [] := by
  have he : evaluate (some d) now = DecommissionView.notDraining := by
    simp only [evaluate]
    by_cases hz : d.startTime = 0
    · rw [if_pos hz]
    · rcases h with h | h | h | h
      · exact absurd h hz
      · rw [if_neg hz, if_pos (by simp [h])]
      · rw [if_neg hz, if_pos (by simp [h])]
      · rw [if_neg hz, if_pos (by simp [h])]
  refine ⟨he, fun pid cmd => ?_⟩
  simp [poolLines, he]

/-- C2 witness: a snapshot with zero start time is `notDraining` and
yields no lines. -/
theorem c2_witness :
    evaluate (some ⟨0, 5, 1, 3, false, false, false⟩) 7 =
      DecommissionView.notDraining ∧
    poolLines ⟨3, "cmd", some ⟨0, 5, 1, 3, false, false, false⟩⟩ 7 = [] :=
  ⟨(c2_notDraining ⟨0, 5, 1, 3, false, false, false⟩ 7 (Or.inl rfl)).1,
   (c2_notDraining ⟨0, 5, 1, 3, false, false, false⟩ 7 (Or.inl rfl)).2 3 "cmd"⟩

/-- C3: an `inProgress` view carries an ETA exactly when the progress
fraction lies strictly between 0 and 1. -/
theorem c3_eta_iff (d : DecomInfo) (now : Int) (m : Metrics)
    (h : evaluate (some d) now = DecommissionView.inProgress m) :
    m.eta.isSome = true ↔ 0 < m.progress ∧ m.progress < 1 := by
  obtain ⟨-, -, -, -, -, -, -, hm⟩ := (evaluate_inProgress_iff d now m).mp h
  subst hm
  simp only [metricsOf]
  unfold etaOf
  split_ifs with hp
  · simpa using hp
  · simpa using hp

/-- C3 witness: a snapshot whose freed bytes exceed the initial-used
estimate (progress 2 ≥ 1) yields an `inProgress` view without an ETA. -/
theorem c3_witness :
    ((metricsOf ⟨1, 2000, 1000, 3000, false, false, false⟩
        20000000001).eta.isSome = true ↔
      0 < (metricsOf ⟨1, 2000, 1000, 3000, false, false, false⟩
        20000000001).progress ∧
      (metricsOf ⟨1, 2000, 1000, 3000, false, false, false⟩
        20000000001).progress < 1) :=
  c3_eta_iff ⟨1, 2000, 1000, 3000, false, false, false⟩ 20000000001 _
    (by unfold evaluate; norm_num [bytesFreed, initialUsed, elapsedSeconds])

/-- C8: with all other snapshot fields fixed, a larger `currentSize`
never yields a smaller progress fraction among `inProgress` views. -/
theorem c8_progress_mono (d : DecomInfo) (now : Int) (c c' : Int)
    (m m' : Metrics)
    (h : evaluate (some { d with currentSize := c }) now =
      DecommissionView.inProgress m)
    (h' : evaluate (some { d with currentSize := c' }) now =
      DecommissionView.inProgress m')
    (hc : c ≤ c') : m.progress ≤ m'.progress := by
  obtain ⟨-, -, -, -, -, hiu, -, hm⟩ := (evaluate_inProgress_iff _ _ _).mp h
  obtain ⟨-, -, -, -, -, -, -, hm'⟩ := (evaluate_inProgress_iff _ _ _).mp h'
  subst hm hm'
  simp only [metricsOf, progressFraction, bytesFreed, initialUsed] at hiu ⊢
  have hden : (0 : ℚ) < ((d.totalSize - d.startSize : Int) : ℚ) := by
    exact_mod_cast hiu
  have hnum : ((c - d.startSize : Int) : ℚ) ≤ ((c' - d.startSize : Int) : ℚ) := by
    exact_mod_cast sub_le_sub_right hc d.startSize
  exact div_le_div_of_nonneg_right hnum hden.le

/-- C8 witness: concrete pair with currentSize 1500 vs 1600. -/
theorem c8_witness :
    (metricsOf ⟨1, 2000, 1000, 1500, false, false, false⟩
        20000000001).progress ≤
      (metricsOf ⟨1, 2000, 1000, 1600, false, false, false⟩
        20000000001).progress :=
  c8_progress_mono ⟨1, 2000, 1000, 0, false, false, false⟩ 20000000001
    1500 1600 _ _
    (by unfold evaluate; norm_num [bytesFreed, initialUsed, elapsedSeconds])
    (by unfold evaluate; norm_num [bytesFreed, initialUsed, elapsedSeconds])
    (by norm_num)

/-- C4 counterexample: for TotalSize=8, StartSize=1, CurrentSize=4 and 20
elapsed seconds the progress fraction is 3/7 and the code reports
`now + 26s` (the fractional 26.666...s remainder is truncated by the
float-to-`time.Duration` conversion), which differs from the exact value
`now + (ElapsedSeconds/ProgressFraction - ElapsedSeconds)`. -/
theorem c4_counterexample :
    evaluate (some ⟨1, 8, 1, 4, false, false, false⟩) 20000000001 =
      DecommissionView.inProgress
        (metricsOf ⟨1, 8, 1, 4, false, false, false⟩ 20000000001) ∧
    (metricsOf ⟨1, 8, 1, 4, false, false, false⟩ 20000000001).eta =
      some 46000000001 ∧
    ((46000000001 : ℚ) ≠
      20000000001 +
        (elapsedSeconds 1 20000000001 /
            progressFraction ⟨1, 8, 1, 4, false, false, false⟩ -
          elapsedSeconds 1 20000000001) * 1000000000) ∧
    (metricsOf ⟨1, 1073741824, 0, 229638144, false, false, false⟩
        90000000001).progress = 219 / 1024 := by
  refine ⟨?_, ?_, ?_, ?_⟩
  · simp only [evaluate]
    norm_num [bytesFreed, initialUsed, elapsedSeconds]
  · unfold metricsOf etaOf
    norm_num [progressFraction, bytesFreed, initialUsed, elapsedSeconds,
      ratTrunc]
  · norm_num [progressFraction, bytesFreed, initialUsed, elapsedSeconds]
  · unfold metricsOf
    norm_num [progressFraction, bytesFreed, initialUsed]

/-- C4 (amended): when an `inProgress` view carries an ETA it equals
`now` plus the whole-second truncation of
`ElapsedSeconds/ProgressFraction - ElapsedSeconds`, and it is never
before `now`. -/
theorem c4_eta_formula (d : DecomInfo) (now : Int) (m : Metrics) (t : Int)
    (h : evaluate (some d) now = DecommissionView.inProgress m)
    (ht : m.eta = some t) :
    t = now + ratTrunc (elapsedSeconds d.startTime now / progressFraction d -
      elapsedSeconds d.startTime now) * 1000000000 ∧ now ≤ t := by
  obtain ⟨-, -, -, -, -, -, hel, hm⟩ := (evaluate_inProgress_iff d now m).mp h
  subst hm
  simp only [metricsOf] at ht
  unfold etaOf at ht
  split_ifs at ht with hp
  · have hteq := (Option.some.injEq _ _).mp ht
    refine ⟨hteq.symm, ?_⟩
    rw [← hteq]
    have hes : (0 : ℚ) < elapsedSeconds d.startTime now := lt_trans (by norm_num) hel
    have hquot : elapsedSeconds d.startTime now ≤
        elapsedSeconds d.startTime now / progressFraction d := by
      rw [le_div_iff₀ hp.1]
      calc elapsedSeconds d.startTime now * progressFraction d
          ≤ elapsedSeconds d.startTime now * 1 := by
            exact mul_le_mul_of_nonneg_left hp.2.le hes.le
        _ = elapsedSeconds d.startTime now := mul_one _
    have hpos : (0 : ℚ) ≤ elapsedSeconds d.startTime now / progressFraction d -
        elapsedSeconds d.startTime now := sub_nonneg.mpr hquot
    have htr : 0 ≤ ratTrunc (elapsedSeconds d.startTime now / progressFraction d -
        elapsedSeconds d.startTime now) := by
      unfold ratTrunc
      rw [if_pos hpos]
      exact Int.floor_nonneg.mpr hpos
    have : 0 ≤ ratTrunc (elapsedSeconds d.startTime now / progressFraction d -
        elapsedSeconds d.startTime now) * 1000000000 :=
      mul_nonneg htr (by norm_num)
    omega

/-- C4 witness: the spec round-trip snapshot (TotalSize one GiB,
StartSize 0, CurrentSize 229638144, 90 elapsed seconds) carries an ETA
obeying the truncated formula, 330 whole seconds after `now`, and hence
strictly after `now`. -/
theorem c4_witness :
    (metricsOf ⟨1, 1073741824, 0, 229638144, false, false, false⟩
        90000000001).eta = some 420000000001 ∧
    (420000000001 : Int) = 90000000001 +
      ratTrunc (elapsedSeconds 1 90000000001 /
          progressFraction ⟨1, 1073741824, 0, 229638144, false, false, false⟩ -
        elapsedSeconds 1 90000000001) * 1000000000 ∧
    (90000000001 : Int) ≤ 420000000001 ∧
    (90000000001 : Int) < 420000000001 := by
  have heta : (metricsOf ⟨1, 1073741824, 0, 229638144, false, false, false⟩
      90000000001).eta = some 420000000001 := by
    unfold metricsOf etaOf
    norm_num [progressFraction, bytesFreed, initialUsed, elapsedSeconds,
      ratTrunc]
  have hmain := c4_eta_formula ⟨1, 1073741824, 0, 229638144, false, false, false⟩
    90000000001 _ 420000000001
    (by simp only [evaluate]; norm_num [bytesFreed, initialUsed, elapsedSeconds])
    heta
  exact ⟨heta, hmain.1, hmain.2, by norm_num⟩

/-- C5 counterexample: a snapshot with garbage counters (TotalSize=0,
StartSize=-5) reaches the `inProgress` branch, where the current-usage
percentage divides by `TotalSize = 0`, refuting that every divisor
reached there is strictly positive. -/
theorem c5_counterexample :
    evaluate (some ⟨1, 0, -5, 0, false, false, false⟩) 60000000001 =
      DecommissionView.inProgress
        (metricsOf ⟨1, 0, -5, 0, false, false, false⟩ 60000000001) ∧
    (metricsOf ⟨1, 0, -5, 0, false, false, false⟩ 60000000001).totalSize = 0 := by
  refine ⟨?_, rfl⟩
  simp only [evaluate]
  norm_num [bytesFreed, initialUsed, elapsedSeconds]

/-- C5 (amended): in the `inProgress` branch the divisors `InitialUsed`,
`ElapsedSeconds` and (when an ETA is present) `ProgressFraction` are
strictly positive, and the remaining divisor `TotalSize` is strictly
positive whenever `StartSize` is non-negative — but not in general. -/
theorem c5_divisors (d : DecomInfo) (now : Int) (m : Metrics)
    (h : evaluate (some d) now = DecommissionView.inProgress m) :
    0 < m.initialUsed ∧ 0 < elapsedSeconds d.startTime now ∧
    (m.eta.isSome = true → 0 < m.progress) ∧
    (0 ≤ d.startSize → 0 < m.totalSize) := by
  obtain ⟨-, -, -, -, -, hi, hel, hm⟩ := (evaluate_inProgress_iff d now m).mp h
  subst hm
  refine ⟨hi, lt_trans (by norm_num) hel, ?_, ?_⟩
  · simp only [metricsOf]
    unfold etaOf
    split_ifs with hp
    · exact fun _ => hp.1
    · simp
  · intro hs
    simp only [metricsOf]
    have : d.startSize < d.totalSize := by
      have := hi
      unfold initialUsed at this
      omega
    omega

/-- C5 witness: instantiation at a well-formed in-progress snapshot. -/
theorem c5_witness :
    0 < (metricsOf ⟨1, 2000, 1000, 1500, false, false, false⟩
        20000000001).initialUsed ∧
    0 < elapsedSeconds 1 20000000001 ∧
    ((metricsOf ⟨1, 2000, 1000, 1500, false, false, false⟩
        20000000001).eta.isSome = true →
      0 < (metricsOf ⟨1, 2000, 1000, 1500, false, false, false⟩
        20000000001).progress) ∧
    (0 ≤ (1000 : Int) →
      0 < (metricsOf ⟨1, 2000, 1000, 1500, false, false, false⟩
        20000000001).totalSize) :=
  c5_divisors ⟨1, 2000, 1000, 1500, false, false, false⟩ 20000000001 _
    (by simp only [evaluate]; norm_num [bytesFreed, initialUsed, elapsedSeconds])

/-- C7: when every snapshot is classified `notDraining` — the empty list
included — the report is exactly the single no-pools line. -/
theorem c7_no_pools (pools : List PoolStatus) (now : Int)
    (h : ∀ p ∈ pools, evaluate p.decommission now = DecommissionView.notDraining) :
    report pools now = [Line.noPools] := by
  unfold report
  have hlines : ∀ p ∈ pools, poolLines p now = [] := by
    intro p hp
    have hnd := h p hp
    obtain ⟨pid, cmd, od⟩ := p
    cases od with
    | none => rfl
    | some d => simp [poolLines, hnd]
  have hdrain : ∀ p ∈ pools, isDraining p.decommission = false := by
    intro p hp
    have hnd := h p hp
    obtain ⟨pid, cmd, od⟩ := p
    cases od with
    | none => rfl
    | some d =>
      simp only [evaluate] at hnd
      split_ifs at hnd with hz hf
      · simp [isDraining, hz]
      · simp only [isDraining]
        rw [hf]
        simp
  have h1 : (pools.map fun p => poolLines p now).flatten = [] := by
    rw [List.flatten_eq_nil_iff]
    intro l hl
    obtain ⟨p, hp, rfl⟩ := List.mem_map.mp hl
    exact hlines p hp
  have h2 : (pools.any fun p => isDraining p.decommission) = false := by
    rw [List.any_eq_false]
    intro p hp
    rw [hdrain p hp]
    simp
  rw [h1, h2]
  simp

/-- C7 witness: the empty snapshot list yields exactly the no-pools
message. -/
theorem c7_witness : report [] 0 = [Line.noPools] :=
  c7_no_pools [] 0 (by intro p hp; cases hp)

/-- C9: the per-pool evaluation is a pure function of the snapshot and
the timestamp `now`: equal inputs give equal classified views. -/
theorem c9_deterministic (od od' : Option DecomInfo) (n n' : Int)
    (hod : od = od') (hn : n = n') : evaluate od n = evaluate od' n' := by
  subst hod; subst hn; rfl

/-- C9 witness: instantiation at a concrete snapshot and timestamp. -/
theorem c9_witness :
    evaluate (some ⟨1, 2000, 1000, 1500, false, false, false⟩) 5 =
      evaluate (some ⟨1, 2000, 1000, 1500, false, false, false⟩) 5 :=
  c9_deterministic (some ⟨1, 2000, 1000, 1500, false, false, false⟩)
    (some ⟨1, 2000, 1000, 1500, false, false, false⟩) 5 5 rfl rfl

/-! Supporting lemmas about decimal rendering and `String.intercalate`,
used to show the joined parts string can never equal the sentinel. -/

lemma digitChar_ne_lt (n : Nat) : Nat.digitChar n ≠ '<' := by
  by_cases h : n < 16
  · interval_cases n <;> decide
  · unfold Nat.digitChar
    iterate 16 rw [if_neg (by omega)]
    decide

lemma toDigitsCore_mem (b : Nat) :
    ∀ (f n : Nat) (ds : List Char) (c : Char),
      c ∈ Nat.toDigitsCore b f n ds → c ∈ ds ∨ ∃ k, c = Nat.digitChar k := by
  intro f
  induction f with
  | zero => intro n ds c hc; exact Or.inl hc
  | succ f ih =>
    intro n ds c hc
    simp only [Nat.toDigitsCore] at hc
    by_cases h : n / b = 0
    · rw [if_pos h] at hc
      rcases List.mem_cons.mp hc with h1 | h1
      · exact Or.inr ⟨n % b, h1⟩
      · exact Or.inl h1
    · rw [if_neg h] at hc
      rcases ih (n / b) (Nat.digitChar (n % b) :: ds) c hc with h1 | h1
      · rcases List.mem_cons.mp h1 with h2 | h2
        · exact Or.inr ⟨n % b, h2⟩
        · exact Or.inl h2
      · exact Or.inr h1

lemma repr_mem_digitChar (n : Nat) (c : Char)
    (hc : c ∈ (Nat.repr n).data) : ∃ k, c = Nat.digitChar k := by
  have hc2 : c ∈ Nat.toDigits 10 n := hc
  unfold Nat.toDigits at hc2
  rcases toDigitsCore_mem 10 (n + 1) n [] c hc2 with h | h
  · cases h
  · exact h

lemma toString_int_pos_mem (n : Int) (hn : 0 < n) (c : Char)
    (hc : c ∈ (toString n).data) : ∃ k, c = Nat.digitChar k := by
  cases n with
  | ofNat m => exact repr_mem_digitChar m c hc
  | negSucc m => exact absurd hn (not_lt.mpr (le_of_lt (Int.negSucc_lt_zero m)))

lemma intercalate_go_mem (s : String) (c : Char) :
    ∀ (l : List String) (acc : String),
      c ∈ (String.intercalate.go acc s l).data →
      c ∈ acc.data ∨ c ∈ s.data ∨ ∃ p ∈ l, c ∈ p.data := by
  intro l
  induction l with
  | nil => intro acc hc; exact Or.inl hc
  | cons a as ih =>
    intro acc hc
    have hgo : String.intercalate.go acc s (a :: as) =
        String.intercalate.go (acc ++ s ++ a) s as := rfl
    rw [hgo] at hc
    rcases ih (acc ++ s ++ a) hc with h | h | h
    · rw [String.data_append, String.data_append] at h
      rcases List.mem_append.mp h with h2 | h2
      · rcases List.mem_append.mp h2 with h3 | h3
        · exact Or.inl h3
        · exact Or.inr (Or.inl h3)
      · exact Or.inr (Or.inr ⟨a, List.mem_cons_self a as, h2⟩)
    · exact Or.inr (Or.inl h)
    · obtain ⟨p, hp, hcp⟩ := h
      exact Or.inr (Or.inr ⟨p, List.mem_cons_of_mem a hp, hcp⟩)

lemma intercalate_mem (s : String) (l : List String) (c : Char)
    (hc : c ∈ (String.intercalate s l).data) :
    c ∈ s.data ∨ ∃ p ∈ l, c ∈ p.data := by
  cases l with
  | nil => exact absurd hc (by simp [String.intercalate])
  | cons a as =>
    have hint : String.intercalate s (a :: as) =
        String.intercalate.go a s as := rfl
    rw [hint] at hc
    rcases intercalate_go_mem s c as a hc with h | h | h
    · exact Or.inr ⟨a, List.mem_cons_self a as, h⟩
    · exact Or.inl h
    · obtain ⟨p, hp, hcp⟩ := h
      exact Or.inr ⟨p, List.mem_cons_of_mem a hp, hcp⟩

lemma formatParts_no_lt (d : Int) (p : String) (hp : p ∈ formatParts d) :
    '<' ∉ p.data := by
  intro hcp
  have hgen : ∀ (n : Int) (suf : String), 0 < n → '<' ∉ suf.data →
      '<' ∉ (toString n ++ suf).data := by
    intro n suf hn hsuf hmem
    rw [String.data_append] at hmem
    rcases List.mem_append.mp hmem with h | h
    · obtain ⟨k, hk⟩ := toString_int_pos_mem n hn _ h
      exact digitChar_ne_lt k hk.symm
    · exact hsuf h
  unfold formatParts at hp
  rcases List.mem_append.mp hp with h12 | h3
  · rcases List.mem_append.mp h12 with h1 | h2
    · split_ifs at h1 with hg
      · rcases List.mem_cons.mp h1 with rfl | h
        · exact hgen _ "d" hg (by decide) hcp
        · cases h
      · cases h1
    · split_ifs at h2 with hg
      · rcases List.mem_cons.mp h2 with rfl | h
        · exact hgen _ "h" hg (by decide) hcp
        · cases h
      · cases h2
  · split_ifs at h3 with hg
    · rcases List.mem_cons.mp h3 with rfl | h
      · exact hgen _ "m" hg (by decide) hcp
      · cases h
    · cases h3

lemma formatDuration_ne_sentinel (d : Int) (hne : formatParts d ≠ []) :
    formatDuration d ≠ "< 1m" := by
  unfold formatDuration
  cases hfp : formatParts d with
  | nil => exact absurd hfp hne
  | cons a as =>
    intro heq
    have heq2 : String.intercalate " " (a :: as) = "< 1m" := heq
    have hlt : '<' ∈ (String.intercalate " " (a :: as)).data := by
      rw [heq2]; decide
    rcases intercalate_mem " " (a :: as) '<' hlt with h | ⟨p, hpmem, hcp⟩
    · exact absurd h (by decide)
    · exact formatParts_no_lt d p (hfp ▸ hpmem) hcp

lemma formatParts_eq_nil_iff (d : Int) :
    formatParts d = [] ↔
      (ratTrunc (durationHours d)).tdiv 24 ≤ 0 ∧
      (ratTrunc (durationHours d)).tmod 24 ≤ 0 ∧
      (ratTrunc (durationMinutes d)).tmod 60 ≤ 0 := by
  unfold formatParts
  split_ifs with h1 h2 h3 <;> simp_all

lemma ratTrunc_of_nonneg {q : ℚ} (h : 0 ≤ q) : ratTrunc q = ⌊q⌋ := by
  unfold ratTrunc
  rw [if_pos h]

lemma tdiv_nonpos_of_nonpos {a b : Int} (ha : a ≤ 0) (hb : 0 ≤ b) :
    a.tdiv b ≤ 0 := by
  have h : a.tdiv b = -((-a).tdiv b) := by
    rw [← Int.neg_tdiv, Int.neg_neg]
  rw [h]
  exact neg_nonpos.mpr (Int.tdiv_nonneg (neg_nonneg.mpr ha) hb)

lemma tmod_nonpos_of_nonpos {a b : Int} (ha : a ≤ 0) :
    a.tmod b ≤ 0 := by
  have h : a.tmod b = -((-a).tmod b) := by
    rw [Int.tmod_def, Int.tmod_def, Int.neg_tdiv]
    ring
  rw [h]
  exact neg_nonpos.mpr (Int.tmod_nonneg b (neg_nonneg.mpr ha))

/-- C6: for every non-negative duration the formatter returns the
sentinel exactly when the duration is below one whole minute, and the
concrete cases of the spec hold: 0 ns is the sentinel, 125 minutes is
rendered with hour and minute components, and 90000 seconds omits the
zero minute component. -/
theorem c6_duration_format (d : Int) (hd : 0 ≤ d) :
    (formatDuration d = "< 1m" ↔ d < 60000000000) ∧
    formatDuration 0 = "< 1m" ∧
    formatDuration 7500000000000 = "2h 5m" ∧
    formatDuration 90000000000000 = "1d 1h" := by
  have hdq : (0 : ℚ) ≤ (d : ℚ) := by exact_mod_cast hd
  have hqh : (0 : ℚ) ≤ durationHours d := by
    unfold durationHours
    positivity
  have hqm : (0 : ℚ) ≤ durationMinutes d := by
    unfold durationMinutes
    positivity
  have hH0 : 0 ≤ ratTrunc (durationHours d) := by
    rw [ratTrunc_of_nonneg hqh]
    exact Int.floor_nonneg.mpr hqh
  have hM0 : 0 ≤ ratTrunc (durationMinutes d) := by
    rw [ratTrunc_of_nonneg hqm]
    exact Int.floor_nonneg.mpr hqm
  refine ⟨⟨?_, ?_⟩, ?_, ?_, ?_⟩
  · intro hfmt
    by_contra hge
    push_neg at hge
    refine formatDuration_ne_sentinel d ?_ hfmt
    intro hnil
    obtain ⟨hdays, hhours, hmins⟩ := (formatParts_eq_nil_iff d).mp hnil
    have hM1 : 1 ≤ ratTrunc (durationMinutes d) := by
      rw [ratTrunc_of_nonneg hqm]
      refine Int.le_floor.mpr ?_
      unfold durationMinutes
      rw [le_div_iff₀ (by norm_num)]
      push_cast
      linarith [show (60000000000 : ℚ) ≤ (d : ℚ) by exact_mod_cast hge]
    have hMmod : ratTrunc (durationMinutes d) % 60 = 0 := by
      have h1 := Int.tmod_eq_emod hM0 (by norm_num : (0:Int) ≤ 60)
      have h2 := Int.emod_nonneg (ratTrunc (durationMinutes d))
        (by norm_num : (60:Int) ≠ 0)
      omega
    have hM60 : 60 ≤ ratTrunc (durationMinutes d) :=
      Int.le_of_dvd (by omega) (Int.dvd_of_emod_eq_zero hMmod)
    have hd36 : (3600000000000 : ℚ) ≤ (d : ℚ) := by
      have h60 : (60 : Int) ≤ ⌊durationMinutes d⌋ := by
        rw [← ratTrunc_of_nonneg hqm]
        exact hM60
      have h1 : (60 : ℚ) ≤ durationMinutes d := by
        exact_mod_cast Int.le_floor.mp h60
      unfold durationMinutes at h1
      rw [le_div_iff₀ (by norm_num)] at h1
      linarith
    have hH1 : 1 ≤ ratTrunc (durationHours d) := by
      rw [ratTrunc_of_nonneg hqh]
      refine Int.le_floor.mpr ?_
      unfold durationHours
      rw [le_div_iff₀ (by norm_num)]
      push_cast
      linarith
    have hHmod : ratTrunc (durationHours d) % 24 = 0 := by
      have h1 := Int.tmod_eq_emod hH0 (by norm_num : (0:Int) ≤ 24)
      have h2 := Int.emod_nonneg (ratTrunc (durationHours d))
        (by norm_num : (24:Int) ≠ 0)
      omega
    have hH24 : 24 ≤ ratTrunc (durationHours d) :=
      Int.le_of_dvd (by omega) (Int.dvd_of_emod_eq_zero hHmod)
    have hdiv : 1 ≤ (ratTrunc (durationHours d)).tdiv 24 := by
      rw [Int.tdiv_eq_ediv hH0 (by norm_num)]
      rw [Int.le_ediv_iff_mul_le (by norm_num)]
      omega
    omega
  · intro hlt
    have hH : ratTrunc (durationHours d) = 0 := by
      rw [ratTrunc_of_nonneg hqh]
      rw [Int.floor_eq_zero_iff]
      refine Set.mem_Ico.mpr ⟨hqh, ?_⟩
      unfold durationHours
      rw [div_lt_one (by norm_num)]
      have : (d : ℚ) < 60000000000 := by exact_mod_cast hlt
      linarith
    have hM : ratTrunc (durationMinutes d) = 0 := by
      rw [ratTrunc_of_nonneg hqm]
      rw [Int.floor_eq_zero_iff]
      refine Set.mem_Ico.mpr ⟨hqm, ?_⟩
      unfold durationMinutes
      rw [div_lt_one (by norm_num)]
      exact_mod_cast hlt
    have hnil : formatParts d = [] := by
      rw [formatParts_eq_nil_iff, hH, hM]
      refine ⟨?_, ?_, ?_⟩ <;> decide
    unfold formatDuration
    rw [hnil]
  · unfold formatDuration formatParts
    norm_num [durationHours, durationMinutes, ratTrunc]
  · unfold formatDuration formatParts
    norm_num [durationHours, durationMinutes, ratTrunc, Int.tdiv, Int.tmod]
    all_goals decide
  · unfold formatDuration formatParts
    norm_num [durationHours, durationMinutes, ratTrunc, Int.tdiv, Int.tmod]
    all_goals decide

/-- C6 witness: instantiation of the sentinel characterization at
duration 0. -/
theorem c6_witness :
    (formatDuration 0 = "< 1m" ↔ (0 : Int) < 60000000000) ∧
    formatDuration 0 = "< 1m" ∧
    formatDuration 7500000000000 = "2h 5m" ∧
    formatDuration 90000000000000 = "1d 1h" :=
  c6_duration_format 0 le_rfl

/-- C10: every strictly negative duration collapses to the sentinel:
all three components fail the strictly-positive checks. -/
theorem c10_negative_sentinel (d : Int) (hd : d < 0) :
    formatDuration d = "< 1m" := by
  have hq : (d : ℚ) < 0 := by exact_mod_cast hd
  have hh : durationHours d < 0 := by
    unfold durationHours
    exact div_neg_of_neg_of_pos hq (by norm_num)
  have hm : durationMinutes d < 0 := by
    unfold durationMinutes
    exact div_neg_of_neg_of_pos hq (by norm_num)
  have hH : ratTrunc (durationHours d) ≤ 0 := by
    unfold ratTrunc
    rw [if_neg (not_le.mpr hh)]
    refine Int.ceil_le.mpr ?_
    push_cast
    exact hh.le
  have hM : ratTrunc (durationMinutes d) ≤ 0 := by
    unfold ratTrunc
    rw [if_neg (not_le.mpr hm)]
    refine Int.ceil_le.mpr ?_
    push_cast
    exact hm.le
  have hnil : formatParts d = [] :=
    (formatParts_eq_nil_iff d).mpr
      ⟨tdiv_nonpos_of_nonpos hH (by norm_num),
       tmod_nonpos_of_nonpos hH, tmod_nonpos_of_nonpos hM⟩
  unfold formatDuration
  rw [hnil]

/-- C10 witness: minus 90000 seconds formats as the sentinel. -/
theorem c10_witness : formatDuration (-90000000000000) = "< 1m" :=
  c10_negative_sentinel (-90000000000000) (by norm_num)

end DecomEta
